import Mathlib

/-!
Verification of the `load_optimizer` core (`src/load_optimizer/models.py` and
`src/load_optimizer/optimizer.py`).

Numeric fields are embedded as rationals (`ℚ`), giving the exact arithmetic the
specification demands of the optimizer.  The external integer-programming solve
(`prob.solve(pulp.PULP_CBC_CMD(msg=False))`, delegating to the CBC binary whose
source is not part of this repository) is modelled from the specification's
Selector contract: an exact maximization of the objective over all 0/1
assignments of the per-id decision variables, reporting infeasibility exactly
when no assignment satisfies the constraints.  Everything around that call —
the profit model, the profit dictionary, the eligibility filter, the constraint
system, and the result extraction loop — is translated directly from the
Python source, including the failure of constraint building: with an empty
effective job list each constraint line is a plain bool, and pulp raises a
`TypeError` when that bool is `False` (see `optimize_jobs_run`).
-/

/-- Embeds the `Job` container of `load_optimizer/models.py`.  The four string
fields are descriptive metadata, carried through unchanged. -/
structure Job where
  id : String
  revenue : ℚ
  loaded_miles : ℚ
  deadhead_miles : ℚ
  hours : ℚ
  pallets : ℚ
  pickup_city : String
  dropoff_city : String
  date : String
  notes : String
deriving DecidableEq

/-- Embeds the `ProblemConfig` container of `load_optimizer/models.py`. -/
structure ProblemConfig where
  max_hours : ℚ
  max_pallets : ℚ
  fuel_cost_per_mile : ℚ
  driver_cost_per_hour : ℚ
deriving DecidableEq

/-- Embeds `compute_job_profit` of `load_optimizer/optimizer.py`. -/
def compute_job_profit (job : Job) (cfg : ProblemConfig) : ℚ :=
  let total_miles := job.loaded_miles + job.deadhead_miles
  let fuel_cost := total_miles * cfg.fuel_cost_per_mile
  let labor_cost := job.hours * cfg.driver_cost_per_hour
  let total_cost := fuel_cost + labor_cost
  job.revenue - total_cost

/-- Embeds the Python dict `profits` built at the top of `optimize_jobs`: one
entry per job id, a later assignment to a key overwriting an earlier one, so a
lookup returns the profit of the last job in the list bearing that id (and `0`
for an absent key, a case the source never exercises). -/
def profitsMap (jobs : List Job) (cfg : ProblemConfig) : String → ℚ := fun i =>
  match jobs.reverse.find? (fun j => j.id == i) with
  | some j => compute_job_profit j cfg
  | none => 0

/-- Embeds the optional pre-filtering step of `optimize_jobs`: with
`min_profit_per_job = some m`, the jobs whose cached profit lies below `m` are
dropped before the solver runs; with `none` the list is left untouched. -/
def filteredJobs (jobs : List Job) (cfg : ProblemConfig)
    (min_profit_per_job : Option ℚ) : List Job :=
  match min_profit_per_job with
  | none => jobs
  | some m => jobs.filter (fun j => decide (m ≤ profitsMap jobs cfg j.id))

/-- The jobs a 0/1 assignment of the decision variables selects.  The variables
of the source are keyed by job id (the Python dict `x`), so selecting the set
`S` of ids selects every job whose id lies in `S`; the extraction loop of the
source appends exactly these jobs, in list order. -/
def selJobs (jobs : List Job) (S : List String) : List Job :=
  jobs.filter (fun j => decide (j.id ∈ S))

/-- Sum of a numeric field over a list of jobs. -/
def sumBy (f : Job → ℚ) (l : List Job) : ℚ := (l.map f).sum

/-- Total profit of a list of jobs under the per-job profit model. -/
def profitSum (cfg : ProblemConfig) (l : List Job) : ℚ :=
  sumBy (fun j => compute_job_profit j cfg) l

/-- An optional bound imposes a constraint only when present. -/
def boundOk (b : Option ℚ) (s : ℚ) : Prop :=
  match b with
  | none => True
  | some d => s ≤ d

instance (b : Option ℚ) (s : ℚ) : Decidable (boundOk b s) :=
  match b with
  | none => isTrue trivial
  | some d => inferInstanceAs (Decidable (s ≤ d))

/-- The constraint system `optimize_jobs` builds, evaluated on a concrete list
of selected jobs: the hours and pallets bounds are always present, the deadhead
and total-miles bounds only when configured. -/
def FeasibleSub (cfg : ProblemConfig) (max_deadhead max_total_miles : Option ℚ)
    (l : List Job) : Prop :=
  sumBy Job.hours l ≤ cfg.max_hours ∧
  sumBy Job.pallets l ≤ cfg.max_pallets ∧
  boundOk max_deadhead (sumBy Job.deadhead_miles l) ∧
  boundOk max_total_miles (sumBy (fun j => j.loaded_miles + j.deadhead_miles) l)

instance (cfg : ProblemConfig) (md mt : Option ℚ) (l : List Job) :
    Decidable (FeasibleSub cfg md mt l) := by
  unfold FeasibleSub
  infer_instance

/-- The distinct job ids: the source creates one binary variable per key of the
dict `x`, i.e. one per distinct id. -/
def uniqueIds (jobs : List Job) : List String := (jobs.map Job.id).dedup

/-- Deterministic argmax over a list of candidate selections. -/
def pickBest (f : List String → ℚ) : List (List String) → Option (List String)
  | [] => none
  | S :: rest =>
    match pickBest f rest with
    | none => some S
    | some b => if f b < f S then some S else some b

/-- All feasible 0/1 assignments of the decision variables, each given as the
subset of distinct ids set to 1. -/
def candidateSels (jobs : List Job) (cfg : ProblemConfig) (md mt : Option ℚ) :
    List (List String) :=
  ((uniqueIds jobs).sublists).filter
    (fun S => decide (FeasibleSub cfg md mt (selJobs jobs S)))

/-- Modelled from the spec: the call `prob.solve(pulp.PULP_CBC_CMD(msg=False))`
delegates the integer program to the external CBC solver, whose source is not
part of this repository.  Following the Selector contract of the specification
(an exact optimizer that never settles for a feasible but suboptimal solution,
and reports infeasibility only when no assignment satisfies the constraints),
the solve step returns a feasible assignment maximizing the objective
`Σ profits[id] · x_id`, or `none` when no assignment is feasible. -/
def bestSelection (profits : String → ℚ) (jobs : List Job) (cfg : ProblemConfig)
    (md mt : Option ℚ) : Option (List String) :=
  pickBest (fun S => sumBy (fun j => profits j.id) (selJobs jobs S))
    (candidateSels jobs cfg md mt)

/-- The result dictionary `optimize_jobs` returns. -/
structure OptResult where
  status : String
  total_profit : ℚ
  total_hours : ℚ
  total_pallets : ℚ
  chosen_jobs : List Job
  all_profits : String → ℚ

/-- Embeds `optimize_jobs` of `load_optimizer/optimizer.py`: profits are cached
for every input job, the optional eligibility filter is applied, the solver
(see `bestSelection`) picks the best feasible assignment, and the extraction
loop rebuilds the chosen jobs and totals from the assignment.  When the problem
is infeasible no variable carries a value (`pulp.value` yields `None`), so the
extraction loop selects nothing and the totals stay `0`.  This function models
the run in which constraint building succeeds; the corner in which the source
raises — empty effective job list together with a negative configured bound —
is modelled by `optimize_jobs_run` below. -/
def optimize_jobs (jobs : List Job) (cfg : ProblemConfig)
    (max_deadhead max_total_miles min_profit_per_job : Option ℚ) : OptResult :=
  match bestSelection (profitsMap jobs cfg)
      (filteredJobs jobs cfg min_profit_per_job) cfg max_deadhead max_total_miles with
  | some S =>
    { status := "Optimal"
      total_profit := sumBy (fun j => profitsMap jobs cfg j.id)
        (selJobs (filteredJobs jobs cfg min_profit_per_job) S)
      total_hours := sumBy Job.hours
        (selJobs (filteredJobs jobs cfg min_profit_per_job) S)
      total_pallets := sumBy Job.pallets
        (selJobs (filteredJobs jobs cfg min_profit_per_job) S)
      chosen_jobs := selJobs (filteredJobs jobs cfg min_profit_per_job) S
      all_profits := profitsMap jobs cfg }
  | none =>
    { status := "Infeasible"
      total_profit := 0
      total_hours := 0
      total_pallets := 0
      chosen_jobs := []
      all_profits := profitsMap jobs cfg }

/-- The message of the `TypeError` pulp raises when a plain `False` is added to
a problem as a constraint. -/
def pulpFalseMsg : String :=
  "TypeError: A False object cannot be passed as a constraint"

/-- Embeds the full call of `optimize_jobs`, its constraint-building failure
included.  When the post-filter job list is empty, Python's builtin `sum` over
an empty generator is the plain int `0`, so each constraint line of the source
evaluates `0 <= bound` to a bool before `prob += ...` sees it;
`pulp.LpProblem.__iadd__` accepts `True` as a no-op and raises a `TypeError`
on `False`.  The call therefore raises exactly when the effective job list is
empty and some configured bound is negative (equivalently, when the empty
selection is infeasible), and otherwise returns the result of the solve. -/
def optimize_jobs_run (jobs : List Job) (cfg : ProblemConfig)
    (max_deadhead max_total_miles min_profit_per_job : Option ℚ) :
    Except String OptResult :=
  if filteredJobs jobs cfg min_profit_per_job = [] ∧
      ¬ FeasibleSub cfg max_deadhead max_total_miles [] then
    Except.error pulpFalseMsg
  else
    Except.ok (optimize_jobs jobs cfg max_deadhead max_total_miles min_profit_per_job)

/-! ### Concrete fixtures used by witnesses and counterexamples -/

/-- A profitable job used in concrete instances. -/
def jw1 : Job :=
  { id := "a", revenue := 10, loaded_miles := 0, deadhead_miles := 0,
    hours := 1, pallets := 1, pickup_city := "", dropoff_city := "",
    date := "", notes := "" }

/-- A mildly profitable job used in concrete instances. -/
def jw2 : Job :=
  { id := "b", revenue := 4, loaded_miles := 0, deadhead_miles := 0,
    hours := 1, pallets := 1, pickup_city := "", dropoff_city := "",
    date := "", notes := "" }

/-- A configuration admitting both of `jw1`, `jw2` at zero cost. -/
def cfgW : ProblemConfig :=
  { max_hours := 2, max_pallets := 2, fuel_cost_per_mile := 0,
    driver_cost_per_hour := 0 }

/-- A configuration with a negative mandatory hours budget. -/
def cfgNeg : ProblemConfig :=
  { max_hours := -1, max_pallets := 5, fuel_cost_per_mile := 0,
    driver_cost_per_hour := 0 }

/-- First of two jobs sharing the id "d". -/
def jd1 : Job :=
  { id := "d", revenue := 5, loaded_miles := 0, deadhead_miles := 0,
    hours := 1, pallets := 1, pickup_city := "", dropoff_city := "",
    date := "", notes := "" }

/-- Second of two jobs sharing the id "d". -/
def jd2 : Job :=
  { id := "d", revenue := 3, loaded_miles := 0, deadhead_miles := 0,
    hours := 1, pallets := 1, pickup_city := "", dropoff_city := "",
    date := "", notes := "" }

/-! ### Helper lemmas about the argmax `pickBest` -/

theorem pickBest_none_eq_nil (f : List String → ℚ) :
    ∀ {l : List (List String)}, pickBest f l = none → l = [] := by
  intro l h
  cases l with
  | nil => rfl
  | cons S rest =>
    exfalso
    cases hr : pickBest f rest with
    | none =>
      simp only [pickBest, hr] at h
      exact Option.noConfusion h
    | some b =>
      simp only [pickBest, hr] at h
      by_cases hc : f b < f S
      · rw [if_pos hc] at h; exact Option.noConfusion h
      · rw [if_neg hc] at h; exact Option.noConfusion h

theorem pickBest_mem (f : List String → ℚ) :
    ∀ {l : List (List String)} {S : List String}, pickBest f l = some S → S ∈ l := by
  intro l
  induction l with
  | nil => intro S h; exact Option.noConfusion h
  | cons T rest ih =>
    intro S h
    cases hr : pickBest f rest with
    | none =>
      simp only [pickBest, hr, Option.some.injEq] at h
      rw [← h]
      exact List.mem_cons_self T rest
    | some b =>
      simp only [pickBest, hr] at h
      by_cases hc : f b < f T
      · rw [if_pos hc, Option.some.injEq] at h
        rw [← h]
        exact List.mem_cons_self T rest
      · rw [if_neg hc, Option.some.injEq] at h
        exact List.mem_cons_of_mem T (ih (hr.trans (congrArg some h)))

theorem pickBest_le (f : List String → ℚ) :
    ∀ {l : List (List String)} {S : List String}, pickBest f l = some S →
      ∀ T ∈ l, f T ≤ f S := by
  intro l
  induction l with
  | nil => intro S h; exact Option.noConfusion h
  | cons U rest ih =>
    intro S h T hT
    cases hr : pickBest f rest with
    | none =>
      simp only [pickBest, hr, Option.some.injEq] at h
      have hrest : rest = [] := pickBest_none_eq_nil f hr
      subst hrest
      rcases List.mem_cons.mp hT with hTU | hTnil
      · rw [hTU, ← h]
      · exact absurd hTnil (List.not_mem_nil T)
    | some b =>
      simp only [pickBest, hr] at h
      have hrest : ∀ V ∈ rest, f V ≤ f b := ih hr
      by_cases hc : f b < f U
      · rw [if_pos hc, Option.some.injEq] at h
        rcases List.mem_cons.mp hT with hTU | hTr
        · rw [hTU, ← h]
        · exact le_trans (hrest T hTr) (le_of_lt (h ▸ hc))
      · rw [if_neg hc, Option.some.injEq] at h
        rcases List.mem_cons.mp hT with hTU | hTr
        · rw [hTU]; exact h ▸ le_of_not_lt hc
        · exact h ▸ hrest T hTr

/-! ### Bridge lemmas between the embedding's pieces -/

theorem optimize_jobs_some {jobs : List Job} {cfg : ProblemConfig}
    {md mt mp : Option ℚ} {S : List String}
    (hbs : bestSelection (profitsMap jobs cfg) (filteredJobs jobs cfg mp) cfg md mt
      = some S) :
    optimize_jobs jobs cfg md mt mp =
      { status := "Optimal"
        total_profit := sumBy (fun j => profitsMap jobs cfg j.id)
          (selJobs (filteredJobs jobs cfg mp) S)
        total_hours := sumBy Job.hours (selJobs (filteredJobs jobs cfg mp) S)
        total_pallets := sumBy Job.pallets (selJobs (filteredJobs jobs cfg mp) S)
        chosen_jobs := selJobs (filteredJobs jobs cfg mp) S
        all_profits := profitsMap jobs cfg } := by
  unfold optimize_jobs
  rw [hbs]

theorem optimize_jobs_none {jobs : List Job} {cfg : ProblemConfig}
    {md mt mp : Option ℚ}
    (hbs : bestSelection (profitsMap jobs cfg) (filteredJobs jobs cfg mp) cfg md mt
      = none) :
    optimize_jobs jobs cfg md mt mp =
      { status := "Infeasible"
        total_profit := 0
        total_hours := 0
        total_pallets := 0
        chosen_jobs := []
        all_profits := profitsMap jobs cfg } := by
  unfold optimize_jobs
  rw [hbs]

theorem mem_candidateSels_iff {jobs : List Job} {cfg : ProblemConfig}
    {md mt : Option ℚ} {S : List String} :
    S ∈ candidateSels jobs cfg md mt ↔
      S.Sublist (uniqueIds jobs) ∧ FeasibleSub cfg md mt (selJobs jobs S) := by
  unfold candidateSels
  rw [List.mem_filter, List.mem_sublists, decide_eq_true_iff]

theorem profitsMap_eq_compute {jobs : List Job} {cfg : ProblemConfig}
    (hnd : (jobs.map Job.id).Nodup) {j : Job} (hj : j ∈ jobs) :
    profitsMap jobs cfg j.id = compute_job_profit j cfg := by
  have hx : ∃ x, x ∈ jobs.reverse ∧ (x.id == j.id) = true :=
    ⟨j, by simpa using hj, by simp⟩
  have hsome : (jobs.reverse.find? (fun x => x.id == j.id)).isSome := by
    rw [List.find?_isSome]; exact hx
  obtain ⟨j', hj'⟩ := Option.isSome_iff_exists.mp hsome
  have hmem : j' ∈ jobs := by
    have := List.mem_of_find?_eq_some hj'
    simpa using this
  have hid : j'.id = j.id := by
    have := List.find?_some hj'
    simpa using this
  have hjj : j' = j := List.inj_on_of_nodup_map hnd hmem hj hid
  simp only [profitsMap, hj', hjj]

theorem selJobs_sublist (jobs : List Job) (S : List String) :
    (selJobs jobs S).Sublist jobs :=
  List.filter_sublist jobs

theorem selJobs_nil (jobs : List Job) : selJobs jobs [] = [] := by
  simp [selJobs]

theorem selJobs_map_id :
    ∀ {T jobs : List Job}, T.Sublist jobs → (jobs.map Job.id).Nodup →
      selJobs jobs (T.map Job.id) = T := by
  intro T jobs h
  induction h with
  | slnil => intro _; rfl
  | @cons U l a h ih =>
    intro hnd
    rw [List.map_cons, List.nodup_cons] at hnd
    have hna : a.id ∉ U.map Job.id := fun hin =>
      hnd.1 ((h.map Job.id).subset hin)
    unfold selJobs
    rw [List.filter_cons]
    rw [decide_eq_false hna]
    rw [if_neg Bool.false_ne_true]
    have := ih hnd.2
    unfold selJobs at this
    exact this
  | @cons₂ U l a h ih =>
    intro hnd
    rw [List.map_cons, List.nodup_cons] at hnd
    unfold selJobs
    rw [List.map_cons, List.filter_cons]
    have ha : a.id ∈ a.id :: U.map Job.id := List.mem_cons_self _ _
    rw [decide_eq_true ha]
    rw [if_pos rfl]
    have hcongr : ∀ x ∈ l, (decide (x.id ∈ a.id :: U.map Job.id))
        = (decide (x.id ∈ U.map Job.id)) := by
      intro x hx
      have hxne : x.id ≠ a.id := by
        intro hxe
        exact hnd.1 (hxe ▸ List.mem_map_of_mem Job.id hx)
      by_cases hmem : x.id ∈ U.map Job.id
      · rw [decide_eq_true (List.mem_cons_of_mem _ hmem), decide_eq_true hmem]
      · have hno : x.id ∉ a.id :: U.map Job.id := by
          intro hc
          rcases List.mem_cons.mp hc with hc1 | hc2
          · exact hxne hc1
          · exact hmem hc2
        rw [decide_eq_false hno, decide_eq_false hmem]
    rw [List.filter_congr hcongr]
    have := ih hnd.2
    unfold selJobs at this
    rw [this]

theorem sumBy_congr {f g : Job → ℚ} {l : List Job} (h : ∀ j ∈ l, f j = g j) :
    sumBy f l = sumBy g l := by
  unfold sumBy
  rw [List.map_congr_left h]

theorem sumBy_nonneg {f : Job → ℚ} {l : List Job} (h : ∀ j ∈ l, 0 ≤ f j) :
    0 ≤ sumBy f l := by
  unfold sumBy
  apply List.sum_nonneg
  intro x hx
  obtain ⟨j, hj, rfl⟩ := List.mem_map.mp hx
  exact h j hj

theorem filteredJobs_sublist (jobs : List Job) (cfg : ProblemConfig)
    (mp : Option ℚ) : (filteredJobs jobs cfg mp).Sublist jobs := by
  cases mp with
  | none => exact List.Sublist.refl jobs
  | some m => exact List.filter_sublist jobs

theorem sumBy_profitsMap_eq {jobs : List Job} {cfg : ProblemConfig}
    (hnd : (jobs.map Job.id).Nodup) {l : List Job} (hl : ∀ j ∈ l, j ∈ jobs) :
    sumBy (fun j => profitsMap jobs cfg j.id) l = profitSum cfg l :=
  sumBy_congr (fun j hj => profitsMap_eq_compute hnd (hl j hj))

/-! ### Optimality of the modelled Selector -/

theorem mem_candidateSels_of_sublist {jobs : List Job} {cfg : ProblemConfig}
    {md mt : Option ℚ} {T : List Job} (hnd : (jobs.map Job.id).Nodup)
    (hT : T.Sublist jobs) (hfeas : FeasibleSub cfg md mt T) :
    T.map Job.id ∈ candidateSels jobs cfg md mt := by
  rw [mem_candidateSels_iff]
  constructor
  · have hu : uniqueIds jobs = jobs.map Job.id := List.dedup_eq_self.mpr hnd
    rw [hu]
    exact hT.map Job.id
  · rw [selJobs_map_id hT hnd]
    exact hfeas

theorem opt_le {jobs : List Job} {cfg : ProblemConfig} {md mt mp : Option ℚ}
    (hnd : (jobs.map Job.id).Nodup) {T : List Job}
    (hT : T.Sublist (filteredJobs jobs cfg mp)) (hfeas : FeasibleSub cfg md mt T) :
    profitSum cfg T ≤ (optimize_jobs jobs cfg md mt mp).total_profit := by
  have hfsub : (filteredJobs jobs cfg mp).Sublist jobs := filteredJobs_sublist jobs cfg mp
  have hndf : ((filteredJobs jobs cfg mp).map Job.id).Nodup :=
    (hfsub.map Job.id).nodup hnd
  have hmemT : T.map Job.id ∈ candidateSels (filteredJobs jobs cfg mp) cfg md mt :=
    mem_candidateSels_of_sublist hndf hT hfeas
  cases hbs : bestSelection (profitsMap jobs cfg) (filteredJobs jobs cfg mp) cfg md mt with
  | none =>
    exfalso
    unfold bestSelection at hbs
    have hnil := pickBest_none_eq_nil _ hbs
    rw [hnil] at hmemT
    exact List.not_mem_nil _ hmemT
  | some S =>
    unfold bestSelection at hbs
    have hle := pickBest_le _ hbs _ hmemT
    rw [selJobs_map_id hT hndf] at hle
    have hTmem : ∀ j ∈ T, j ∈ jobs := fun j hj => (hT.trans hfsub).subset hj
    rw [sumBy_profitsMap_eq hnd hTmem] at hle
    rw [optimize_jobs_some hbs]
    exact hle

theorem opt_attained {jobs : List Job} {cfg : ProblemConfig} {md mt mp : Option ℚ}
    (hnd : (jobs.map Job.id).Nodup)
    (hex : ∃ T, T.Sublist (filteredJobs jobs cfg mp) ∧ FeasibleSub cfg md mt T) :
    ∃ T, T.Sublist (filteredJobs jobs cfg mp) ∧ FeasibleSub cfg md mt T ∧
      profitSum cfg T = (optimize_jobs jobs cfg md mt mp).total_profit := by
  obtain ⟨T0, hT0, hf0⟩ := hex
  have hfsub : (filteredJobs jobs cfg mp).Sublist jobs := filteredJobs_sublist jobs cfg mp
  have hndf : ((filteredJobs jobs cfg mp).map Job.id).Nodup :=
    (hfsub.map Job.id).nodup hnd
  have hmem0 : T0.map Job.id ∈ candidateSels (filteredJobs jobs cfg mp) cfg md mt :=
    mem_candidateSels_of_sublist hndf hT0 hf0
  cases hbs : bestSelection (profitsMap jobs cfg) (filteredJobs jobs cfg mp) cfg md mt with
  | none =>
    exfalso
    unfold bestSelection at hbs
    have hnil := pickBest_none_eq_nil _ hbs
    rw [hnil] at hmem0
    exact List.not_mem_nil _ hmem0
  | some S =>
    unfold bestSelection at hbs
    have hSmem := pickBest_mem _ hbs
    have hSfeas := (mem_candidateSels_iff.mp hSmem).2
    refine ⟨selJobs (filteredJobs jobs cfg mp) S, selJobs_sublist _ _, hSfeas, ?_⟩
    rw [optimize_jobs_some hbs]
    have hmems : ∀ j ∈ selJobs (filteredJobs jobs cfg mp) S, j ∈ jobs :=
      fun j hj => hfsub.subset ((selJobs_sublist _ _).subset hj)
    exact (sumBy_profitsMap_eq hnd hmems).symm

theorem chosen_mem_filtered {jobs : List Job} {cfg : ProblemConfig}
    {md mt mp : Option ℚ} {j : Job}
    (hj : j ∈ (optimize_jobs jobs cfg md mt mp).chosen_jobs) :
    j ∈ filteredJobs jobs cfg mp := by
  cases hbs : bestSelection (profitsMap jobs cfg) (filteredJobs jobs cfg mp) cfg md mt with
  | none =>
    rw [optimize_jobs_none hbs] at hj
    exact absurd hj (List.not_mem_nil j)
  | some S =>
    rw [optimize_jobs_some hbs] at hj
    exact (selJobs_sublist _ _).subset hj

theorem all_profits_eq {jobs : List Job} {cfg : ProblemConfig} {md mt mp : Option ℚ} :
    (optimize_jobs jobs cfg md mt mp).all_profits = profitsMap jobs cfg := by
  cases hbs : bestSelection (profitsMap jobs cfg) (filteredJobs jobs cfg mp) cfg md mt with
  | none => rw [optimize_jobs_none hbs]
  | some S => rw [optimize_jobs_some hbs]

/-! ### The raising corner of the full call -/

theorem optimize_jobs_run_ok {jobs : List Job} {cfg : ProblemConfig}
    {md mt mp : Option ℚ} {r : OptResult}
    (hr : optimize_jobs_run jobs cfg md mt mp = Except.ok r) :
    r = optimize_jobs jobs cfg md mt mp := by
  unfold optimize_jobs_run at hr
  split at hr
  · exact Except.noConfusion hr
  · injection hr with h
    exact h.symm

theorem optimize_jobs_run_error {jobs : List Job} {cfg : ProblemConfig}
    {md mt mp : Option ℚ} {e : String}
    (he : optimize_jobs_run jobs cfg md mt mp = Except.error e) :
    filteredJobs jobs cfg mp = [] ∧ ¬ FeasibleSub cfg md mt [] := by
  unfold optimize_jobs_run at he
  split at he
  · assumption
  · exact Except.noConfusion he

theorem optimize_jobs_run_ok_of {jobs : List Job} {cfg : ProblemConfig}
    {md mt mp : Option ℚ}
    (h : ¬ (filteredJobs jobs cfg mp = [] ∧ ¬ FeasibleSub cfg md mt [])) :
    optimize_jobs_run jobs cfg md mt mp
      = Except.ok (optimize_jobs jobs cfg md mt mp) := by
  unfold optimize_jobs_run
  rw [if_neg h]

theorem optimize_jobs_status_cases (jobs : List Job) (cfg : ProblemConfig)
    (md mt mp : Option ℚ) :
    (optimize_jobs jobs cfg md mt mp).status = "Optimal" ∨
    (optimize_jobs jobs cfg md mt mp).status = "Infeasible" := by
  cases hbs : bestSelection (profitsMap jobs cfg) (filteredJobs jobs cfg mp) cfg md mt with
  | none =>
    right
    rw [optimize_jobs_none hbs]
  | some S =>
    left
    rw [optimize_jobs_some hbs]

/-! ### Claim theorems -/

/-- C1: for every candidate list (with the data model's unique-id invariant) of
size at most 15 and every configuration, the subset returned by `optimize_jobs`
achieves a `total_profit` equal to the maximum, over all subsets of the
(possibly filtered) candidates that satisfy every applicable constraint, of the
sum of the candidates' profits: no feasible subset beats it, and whenever any
feasible subset exists the returned profit is attained by one. -/
theorem optimize_jobs_optimal_small (jobs : List Job) (cfg : ProblemConfig)
    (md mt mp : Option ℚ) (hnd : (jobs.map Job.id).Nodup)
    (_hlen : jobs.length ≤ 15) :
    (∀ T, T.Sublist (filteredJobs jobs cfg mp) → FeasibleSub cfg md mt T →
      profitSum cfg T ≤ (optimize_jobs jobs cfg md mt mp).total_profit) ∧
    ((∃ T, T.Sublist (filteredJobs jobs cfg mp) ∧ FeasibleSub cfg md mt T) →
      ∃ T, T.Sublist (filteredJobs jobs cfg mp) ∧ FeasibleSub cfg md mt T ∧
        profitSum cfg T = (optimize_jobs jobs cfg md mt mp).total_profit) :=
  ⟨fun _ hT hfeas => opt_le hnd hT hfeas, fun hex => opt_attained hnd hex⟩

/-- Witness for C1 at a concrete two-job instance. -/
theorem optimize_jobs_optimal_small_witness :
    ([jw1, jw2].map Job.id).Nodup ∧ [jw1, jw2].length ≤ 15 ∧
    profitSum cfgW [jw1] ≤ (optimize_jobs [jw1, jw2] cfgW none none none).total_profit :=
  ⟨by decide!, by decide!,
    (optimize_jobs_optimal_small [jw1, jw2] cfgW none none none (by decide!)
      (by decide!)).1 [jw1] (by decide!) (by decide!)⟩

/-- C2 counterexample: on a one-job input with a negative hours budget the run
completes without raising (the hours constraint is a genuine pulp constraint
over one variable, not a bool), the solver reports infeasibility, and the
returned chosen subset is empty with hours sum `0 > -1` — it violates the
configured hours bound, so the claim's quantification over every input and
configuration fails. -/
theorem chosen_violates_negative_bound :
    optimize_jobs_run [jw1] cfgNeg none none none
      = Except.ok (optimize_jobs [jw1] cfgNeg none none none) ∧
    (optimize_jobs [jw1] cfgNeg none none none).chosen_jobs = [] ∧
    ¬ FeasibleSub cfgNeg none none (optimize_jobs [jw1] cfgNeg none none none).chosen_jobs :=
  ⟨optimize_jobs_run_ok_of (by decide!), by decide!, by decide!⟩

/-- C2 (amended): whenever the run returns a result whose status is "Optimal" —
in particular whenever every configured bound is nonnegative — the chosen
subset satisfies every applicable constraint: hours, pallets, and the optional
deadhead and total-miles bounds when configured. -/
theorem chosen_feasible_when_optimal (jobs : List Job) (cfg : ProblemConfig)
    (md mt mp : Option ℚ) (r : OptResult)
    (hr : optimize_jobs_run jobs cfg md mt mp = Except.ok r)
    (hopt : r.status = "Optimal") :
    FeasibleSub cfg md mt r.chosen_jobs := by
  have heq := optimize_jobs_run_ok hr
  subst heq
  cases hbs : bestSelection (profitsMap jobs cfg) (filteredJobs jobs cfg mp) cfg md mt with
  | none =>
    rw [optimize_jobs_none hbs] at hopt
    simp at hopt
  | some S =>
    rw [optimize_jobs_some hbs]
    unfold bestSelection at hbs
    exact (mem_candidateSels_iff.mp (pickBest_mem _ hbs)).2

/-- Witness for the amended C2 at a concrete instance. -/
theorem chosen_feasible_when_optimal_witness :
    optimize_jobs_run [jw1, jw2] cfgW none none none
      = Except.ok (optimize_jobs [jw1, jw2] cfgW none none none) ∧
    (optimize_jobs [jw1, jw2] cfgW none none none).status = "Optimal" ∧
    FeasibleSub cfgW none none (optimize_jobs [jw1, jw2] cfgW none none none).chosen_jobs :=
  ⟨optimize_jobs_run_ok_of (by decide!), by decide!,
    chosen_feasible_when_optimal [jw1, jw2] cfgW none none none
      (optimize_jobs [jw1, jw2] cfgW none none none)
      (optimize_jobs_run_ok_of (by decide!)) (by decide!)⟩

/-- C3: the per-candidate profit equals
`revenue − (loaded + deadhead) × cost_per_distance − duration × cost_per_duration`
(in the source's field names, `fuel_cost_per_mile` and `driver_cost_per_hour`),
and the function is deterministic: equal inputs give equal values.  Purity is
inherent to the embedding: `compute_job_profit` is a mathematical function. -/
theorem compute_job_profit_formula :
    (∀ (j : Job) (cfg : ProblemConfig),
      compute_job_profit j cfg =
        j.revenue - (j.loaded_miles + j.deadhead_miles) * cfg.fuel_cost_per_mile
          - j.hours * cfg.driver_cost_per_hour) ∧
    (∀ (j j' : Job) (cfg cfg' : ProblemConfig), j = j' → cfg = cfg' →
      compute_job_profit j cfg = compute_job_profit j' cfg') := by
  constructor
  · intro j cfg
    unfold compute_job_profit
    ring
  · intro j j' cfg cfg' h1 h2
    rw [h1, h2]

/-- Witness for C3 at a concrete job and configuration. -/
theorem compute_job_profit_formula_witness :
    compute_job_profit jw1 cfgW =
      jw1.revenue - (jw1.loaded_miles + jw1.deadhead_miles) * cfgW.fuel_cost_per_mile
        - jw1.hours * cfgW.driver_cost_per_hour ∧
    compute_job_profit jw1 cfgW = compute_job_profit jw1 cfgW :=
  ⟨compute_job_profit_formula.1 jw1 cfgW,
    compute_job_profit_formula.2 jw1 jw1 cfgW cfgW rfl rfl⟩

/-- Behavior of the solve under a negative mandatory budget: with nonnegative
per-job fields no selection is feasible, so the result is the infeasible one
(empty selection, profit 0); the status is "Infeasible" only when even the
empty set violates some bound, and whenever the empty set satisfies every
bound the status is "Optimal". -/
theorem optimize_jobs_negative_budget (jobs : List Job) (cfg : ProblemConfig)
    (md mt mp : Option ℚ)
    (hfields : ∀ j ∈ jobs, 0 ≤ j.hours ∧ 0 ≤ j.pallets) :
    ((cfg.max_hours < 0 ∨ cfg.max_pallets < 0) →
      (optimize_jobs jobs cfg md mt mp).chosen_jobs = [] ∧
      (optimize_jobs jobs cfg md mt mp).total_profit = 0) ∧
    ((optimize_jobs jobs cfg md mt mp).status = "Infeasible" →
      ¬ FeasibleSub cfg md mt []) ∧
    (FeasibleSub cfg md mt [] →
      (optimize_jobs jobs cfg md mt mp).status = "Optimal") := by
  have hfieldsf : ∀ j ∈ filteredJobs jobs cfg mp, 0 ≤ j.hours ∧ 0 ≤ j.pallets :=
    fun j hj => hfields j ((filteredJobs_sublist jobs cfg mp).subset hj)
  refine ⟨?_, ?_, ?_⟩
  · intro hneg
    have hcand : candidateSels (filteredJobs jobs cfg mp) cfg md mt = [] := by
      unfold candidateSels
      rw [List.filter_eq_nil_iff]
      intro S hS hdec
      have hfeas : FeasibleSub cfg md mt (selJobs (filteredJobs jobs cfg mp) S) :=
        of_decide_eq_true hdec
      have hmem : ∀ j ∈ selJobs (filteredJobs jobs cfg mp) S,
          j ∈ filteredJobs jobs cfg mp :=
        fun j hj => (selJobs_sublist _ _).subset hj
      rcases hneg with hh | hp
      · have h0 : 0 ≤ sumBy Job.hours (selJobs (filteredJobs jobs cfg mp) S) :=
          sumBy_nonneg (fun j hj => (hfieldsf j (hmem j hj)).1)
        exact absurd (le_trans h0 hfeas.1) (not_le.mpr hh)
      · have h0 : 0 ≤ sumBy Job.pallets (selJobs (filteredJobs jobs cfg mp) S) :=
          sumBy_nonneg (fun j hj => (hfieldsf j (hmem j hj)).2)
        exact absurd (le_trans h0 hfeas.2.1) (not_le.mpr hp)
    have hbs : bestSelection (profitsMap jobs cfg) (filteredJobs jobs cfg mp) cfg md mt
        = none := by
      unfold bestSelection
      rw [hcand]
      rfl
    rw [optimize_jobs_none hbs]
    exact ⟨rfl, rfl⟩
  · intro hinf hfeas
    cases hbs : bestSelection (profitsMap jobs cfg) (filteredJobs jobs cfg mp) cfg md mt with
    | some S =>
      rw [optimize_jobs_some hbs] at hinf
      simp at hinf
    | none =>
      unfold bestSelection at hbs
      have hcand := pickBest_none_eq_nil _ hbs
      have hmem : ([] : List String) ∈ candidateSels (filteredJobs jobs cfg mp) cfg md mt := by
        rw [mem_candidateSels_iff]
        refine ⟨List.nil_sublist _, ?_⟩
        rw [selJobs_nil]
        exact hfeas
      rw [hcand] at hmem
      exact List.not_mem_nil _ hmem
  · intro hfeas
    cases hbs : bestSelection (profitsMap jobs cfg) (filteredJobs jobs cfg mp) cfg md mt with
    | some S => rw [optimize_jobs_some hbs]
    | none =>
      exfalso
      unfold bestSelection at hbs
      have hcand := pickBest_none_eq_nil _ hbs
      have hmem : ([] : List String) ∈ candidateSels (filteredJobs jobs cfg mp) cfg md mt := by
        rw [mem_candidateSels_iff]
        refine ⟨List.nil_sublist _, ?_⟩
        rw [selJobs_nil]
        exact hfeas
      rw [hcand] at hmem
      exact List.not_mem_nil _ hmem

/-- C4 counterexample: with an empty candidate list and a negative hours
budget the hours-constraint line of the source evaluates to
`prob += (0 <= -1)`, i.e. `prob += False`, and pulp raises a TypeError — the
configuration is not accepted without raising, and no result structure (in
particular no empty selection with profit 0) is produced. -/
theorem negative_budget_raises :
    optimize_jobs_run [] cfgNeg none none none = Except.error pulpFalseMsg := by
  unfold optimize_jobs_run
  rw [if_pos (by decide!)]

/-- C4 (amended): a configuration with a negative mandatory budget is accepted
without raising whenever the effective (post-filter) candidate list is
nonempty, and the returned result then has the empty selection with profit 0;
the run raises precisely when the effective list is empty and the empty
selection cannot satisfy some configured bound (pulp rejects the resulting
`False` constraint).  For every returned result, the status is "Infeasible"
only when even the empty set cannot satisfy some bound, and whenever the empty
set satisfies every bound the status is "Optimal".  The per-job fields are
nonnegative per the data model. -/
theorem negative_budget_graceful (jobs : List Job) (cfg : ProblemConfig)
    (md mt mp : Option ℚ)
    (hfields : ∀ j ∈ jobs, 0 ≤ j.hours ∧ 0 ≤ j.pallets) :
    (filteredJobs jobs cfg mp ≠ [] →
      ∃ r, optimize_jobs_run jobs cfg md mt mp = Except.ok r ∧
        ((cfg.max_hours < 0 ∨ cfg.max_pallets < 0) →
          r.chosen_jobs = [] ∧ r.total_profit = 0)) ∧
    (∀ e, optimize_jobs_run jobs cfg md mt mp = Except.error e →
      filteredJobs jobs cfg mp = [] ∧ ¬ FeasibleSub cfg md mt []) ∧
    (∀ r, optimize_jobs_run jobs cfg md mt mp = Except.ok r →
      (r.status = "Infeasible" → ¬ FeasibleSub cfg md mt []) ∧
      (FeasibleSub cfg md mt [] → r.status = "Optimal")) := by
  refine ⟨?_, ?_, ?_⟩
  · intro hne
    have hok := @optimize_jobs_run_ok_of jobs cfg md mt mp (fun hc => hne hc.1)
    exact ⟨optimize_jobs jobs cfg md mt mp, hok,
      fun hneg => (optimize_jobs_negative_budget jobs cfg md mt mp hfields).1 hneg⟩
  · intro e he
    exact optimize_jobs_run_error he
  · intro r hr
    have heq := optimize_jobs_run_ok hr
    subst heq
    exact ⟨(optimize_jobs_negative_budget jobs cfg md mt mp hfields).2.1,
      (optimize_jobs_negative_budget jobs cfg md mt mp hfields).2.2⟩

/-- Witness for the amended C4: a negative hours budget on a nonempty one-job
instance is accepted and yields the empty selection with profit 0. -/
theorem negative_budget_graceful_witness :
    (∀ j ∈ [jw1], 0 ≤ j.hours ∧ 0 ≤ j.pallets) ∧
    filteredJobs [jw1] cfgNeg none ≠ [] ∧
    ∃ r, optimize_jobs_run [jw1] cfgNeg none none none = Except.ok r ∧
      ((cfgNeg.max_hours < 0 ∨ cfgNeg.max_pallets < 0) →
        r.chosen_jobs = [] ∧ r.total_profit = 0) :=
  ⟨by decide!, by decide!,
    (negative_budget_graceful [jw1] cfgNeg none none none (by decide!)).1
      (by decide!)⟩

/-- C5: with `min_profit_per_job = some m`, every job whose computed profit
lies strictly below `m` is removed before the solver runs and never appears in
the chosen subset, every job with profit at least `m` is retained for
optimization, and with the option absent no job is removed. -/
theorem min_profit_filter_hard (jobs : List Job) (cfg : ProblemConfig)
    (md mt : Option ℚ) (hnd : (jobs.map Job.id).Nodup) :
    (∀ m : ℚ, ∀ j ∈ jobs, compute_job_profit j cfg < m →
      j ∉ filteredJobs jobs cfg (some m) ∧
      j ∉ (optimize_jobs jobs cfg md mt (some m)).chosen_jobs) ∧
    (∀ m : ℚ, ∀ j ∈ jobs, m ≤ compute_job_profit j cfg →
      j ∈ filteredJobs jobs cfg (some m)) ∧
    filteredJobs jobs cfg none = jobs := by
  refine ⟨?_, ?_, rfl⟩
  · intro m j hj hlt
    have hpm : profitsMap jobs cfg j.id = compute_job_profit j cfg :=
      profitsMap_eq_compute hnd hj
    have hnotf : j ∉ filteredJobs jobs cfg (some m) := by
      intro hmem
      simp only [filteredJobs] at hmem
      have hge := (List.mem_filter.mp hmem).2
      rw [decide_eq_true_iff, hpm] at hge
      exact absurd hlt (not_lt.mpr hge)
    exact ⟨hnotf, fun hch => hnotf (chosen_mem_filtered hch)⟩
  · intro m j hj hge
    simp only [filteredJobs]
    rw [List.mem_filter]
    refine ⟨hj, ?_⟩
    rw [decide_eq_true_iff, profitsMap_eq_compute hnd hj]
    exact hge

/-- Witness for C5: the floor 5 removes the profit-4 job `jw2` from both the
filtered list and the chosen subset. -/
theorem min_profit_filter_hard_witness :
    compute_job_profit jw2 cfgW < 5 ∧
    jw2 ∉ filteredJobs [jw1, jw2] cfgW (some 5) ∧
    jw2 ∉ (optimize_jobs [jw1, jw2] cfgW none none (some 5)).chosen_jobs :=
  ⟨by decide!,
    (min_profit_filter_hard [jw1, jw2] cfgW none none (by decide!)).1 5 jw2
      (by decide!) (by decide!)⟩

/-- C6 counterexample: a list with two jobs sharing the id "d" is not rejected:
no error is raised, a full result structure is produced with status "Optimal",
both duplicates are selected (they share one decision variable), and the
reported profit doubles the last duplicate's cached profit — no
`ValidationError` path exists anywhere in `optimize_jobs` or its callers. -/
theorem duplicate_ids_produce_result :
    (optimize_jobs [jd1, jd2] cfgW none none none).status = "Optimal" ∧
    (optimize_jobs [jd1, jd2] cfgW none none none).chosen_jobs = [jd1, jd2] ∧
    (optimize_jobs [jd1, jd2] cfgW none none none).total_profit = 6 := by
  decide!

/-- C6 (amended): duplicate candidate ids are not validated: every input list
— duplicate ids included — whose run does not hit the unrelated empty-list
TypeError (the effective job list is nonempty, or every configured bound
admits the empty selection) runs to completion and returns a result structure
with status "Optimal" or "Infeasible"; no ValidationError is ever raised. -/
theorem no_id_validation_result_status (jobs : List Job) (cfg : ProblemConfig)
    (md mt mp : Option ℚ)
    (hne : filteredJobs jobs cfg mp ≠ [] ∨ FeasibleSub cfg md mt []) :
    ∃ r, optimize_jobs_run jobs cfg md mt mp = Except.ok r ∧
      (r.status = "Optimal" ∨ r.status = "Infeasible") := by
  have hno : ¬ (filteredJobs jobs cfg mp = [] ∧ ¬ FeasibleSub cfg md mt []) := by
    intro hc
    rcases hne with h1 | h2
    · exact h1 hc.1
    · exact hc.2 h2
  exact ⟨optimize_jobs jobs cfg md mt mp, optimize_jobs_run_ok_of hno,
    optimize_jobs_status_cases jobs cfg md mt mp⟩

/-- Witness for the amended C6: the duplicate-id input runs to completion and
returns a result. -/
theorem no_id_validation_result_status_witness :
    (filteredJobs [jd1, jd2] cfgW none ≠ [] ∨ FeasibleSub cfgW none none []) ∧
    ∃ r, optimize_jobs_run [jd1, jd2] cfgW none none none = Except.ok r ∧
      (r.status = "Optimal" ∨ r.status = "Infeasible") :=
  ⟨Or.inl (by decide!),
    no_id_validation_result_status [jd1, jd2] cfgW none none none
      (Or.inl (by decide!))⟩

/-- C7: the returned profit mapping contains an entry for every candidate of
the original input list, mapping its id to its computed profit — including
candidates removed by the eligibility filter and candidates left unchosen. -/
theorem all_profits_covers_all_inputs (jobs : List Job) (cfg : ProblemConfig)
    (md mt mp : Option ℚ) (hnd : (jobs.map Job.id).Nodup) :
    ∀ j ∈ jobs,
      (optimize_jobs jobs cfg md mt mp).all_profits j.id = compute_job_profit j cfg := by
  intro j hj
  rw [all_profits_eq]
  exact profitsMap_eq_compute hnd hj

/-- Witness for C7: `jw2` is filtered out by the floor 5 yet keeps its entry. -/
theorem all_profits_covers_all_inputs_witness :
    ([jw1, jw2].map Job.id).Nodup ∧
    (optimize_jobs [jw1, jw2] cfgW none none (some 5)).all_profits jw2.id
      = compute_job_profit jw2 cfgW :=
  ⟨by decide!,
    all_profits_covers_all_inputs [jw1, jw2] cfgW none none (some 5) (by decide!)
      jw2 (by decide!)⟩

/-- C8: enabling the profit floor never increases the achievable optimum — for
every input whose empty selection is feasible the filtered run's total profit
is at most the unfiltered run's — and on a concrete instance the inequality is
strict (floor 5 drops `jw2`, losing its profit 4). -/
theorem filter_never_increases_optimum :
    (∀ (jobs : List Job) (cfg : ProblemConfig) (md mt : Option ℚ) (m : ℚ),
      (jobs.map Job.id).Nodup → FeasibleSub cfg md mt [] →
      (optimize_jobs jobs cfg md mt (some m)).total_profit ≤
        (optimize_jobs jobs cfg md mt none).total_profit) ∧
    (optimize_jobs [jw1, jw2] cfgW none none (some 5)).total_profit <
      (optimize_jobs [jw1, jw2] cfgW none none none).total_profit := by
  constructor
  · intro jobs cfg md mt m hnd hempty
    obtain ⟨T, hT, hf, heq⟩ :=
      @opt_attained jobs cfg md mt (some m) hnd ⟨[], List.nil_sublist _, hempty⟩
    rw [← heq]
    have hTn : T.Sublist (filteredJobs jobs cfg none) :=
      hT.trans (filteredJobs_sublist jobs cfg (some m))
    exact @opt_le jobs cfg md mt none hnd T hTn hf
  · decide!

/-- Witness for the universal half of C8 at a concrete instance. -/
theorem filter_never_increases_optimum_witness :
    ([jw1, jw2].map Job.id).Nodup ∧ FeasibleSub cfgW none none [] ∧
    (optimize_jobs [jw1, jw2] cfgW none none (some 7)).total_profit ≤
      (optimize_jobs [jw1, jw2] cfgW none none none).total_profit :=
  ⟨by decide!, by decide!,
    filter_never_increases_optimum.1 [jw1, jw2] cfgW none none 7
      (by decide!) (by decide!)⟩

/-- C9: the returned totals are exactly the sums of hours, pallets and cached
profit over the chosen subset — in particular `total_profit` is the sum of the
profit-mapping entries of the chosen jobs, and (under unique ids) the sum of
their computed profits; the aggregation involves no decision logic. -/
theorem totals_are_sums_over_chosen (jobs : List Job) (cfg : ProblemConfig)
    (md mt mp : Option ℚ) (hnd : (jobs.map Job.id).Nodup) :
    (optimize_jobs jobs cfg md mt mp).total_hours =
      sumBy Job.hours (optimize_jobs jobs cfg md mt mp).chosen_jobs ∧
    (optimize_jobs jobs cfg md mt mp).total_pallets =
      sumBy Job.pallets (optimize_jobs jobs cfg md mt mp).chosen_jobs ∧
    (optimize_jobs jobs cfg md mt mp).total_profit =
      sumBy (fun j => (optimize_jobs jobs cfg md mt mp).all_profits j.id)
        (optimize_jobs jobs cfg md mt mp).chosen_jobs ∧
    (optimize_jobs jobs cfg md mt mp).total_profit =
      profitSum cfg (optimize_jobs jobs cfg md mt mp).chosen_jobs := by
  cases hbs : bestSelection (profitsMap jobs cfg) (filteredJobs jobs cfg mp) cfg md mt with
  | none =>
    rw [optimize_jobs_none hbs]
    exact ⟨rfl, rfl, rfl, rfl⟩
  | some S =>
    rw [optimize_jobs_some hbs]
    refine ⟨rfl, rfl, rfl, ?_⟩
    have hmems : ∀ j ∈ selJobs (filteredJobs jobs cfg mp) S, j ∈ jobs :=
      fun j hj => (filteredJobs_sublist jobs cfg mp).subset ((selJobs_sublist _ _).subset hj)
    exact sumBy_profitsMap_eq hnd hmems

/-- Witness for C9 at a concrete instance. -/
theorem totals_are_sums_over_chosen_witness :
    ([jw1, jw2].map Job.id).Nodup ∧
    (optimize_jobs [jw1, jw2] cfgW none none none).total_profit =
      profitSum cfgW (optimize_jobs [jw1, jw2] cfgW none none none).chosen_jobs :=
  ⟨by decide!,
    (totals_are_sums_over_chosen [jw1, jw2] cfgW none none none (by decide!)).2.2.2⟩

/-- C10: the chosen subset is a subsequence of the (post-filter) input list —
every chosen job is a filtered input job, relative order is preserved — the
filtered list is itself a subsequence of the input, and under the unique-id
invariant no job appears twice in the chosen subset. -/
theorem chosen_subsequence_of_input (jobs : List Job) (cfg : ProblemConfig)
    (md mt mp : Option ℚ) :
    (optimize_jobs jobs cfg md mt mp).chosen_jobs.Sublist (filteredJobs jobs cfg mp) ∧
    (filteredJobs jobs cfg mp).Sublist jobs ∧
    ((jobs.map Job.id).Nodup → (optimize_jobs jobs cfg md mt mp).chosen_jobs.Nodup) := by
  have hch : (optimize_jobs jobs cfg md mt mp).chosen_jobs.Sublist
      (filteredJobs jobs cfg mp) := by
    cases hbs : bestSelection (profitsMap jobs cfg) (filteredJobs jobs cfg mp) cfg md mt with
    | none =>
      rw [optimize_jobs_none hbs]
      exact List.nil_sublist _
    | some S =>
      rw [optimize_jobs_some hbs]
      exact selJobs_sublist _ _
  refine ⟨hch, filteredJobs_sublist jobs cfg mp, ?_⟩
  intro hnd
  have hjobs : jobs.Nodup := List.Nodup.of_map Job.id hnd
  exact (hch.trans (filteredJobs_sublist jobs cfg mp)).nodup hjobs

/-- Witness for C10 at a concrete instance. -/
theorem chosen_subsequence_of_input_witness :
    ([jw1, jw2].map Job.id).Nodup ∧
    (optimize_jobs [jw1, jw2] cfgW none none none).chosen_jobs.Nodup :=
  ⟨by decide!,
    (chosen_subsequence_of_input [jw1, jw2] cfgW none none none).2.2 (by decide!)⟩
